import Mathlib

/-!
A shallow embedding of the scheduling subsystem of an electrical-services
field-service-management backend (file `backend/jobs/utils.py`): the
nearest-neighbor route optimizer, the route-metrics computation, and the
scheduling assistant (technician suggestion, job-complexity estimation,
time-slot search).

Modelling conventions:
* Decimal/float quantities (coordinates, hours, distances, scores) are
  rationals (`ℚ`); machine floating point is not modelled, and the
  haversine distance function (`calculate_distance`, pure trigonometry on
  floats) is abstracted as an explicit distance-oracle parameter
  `D : Coord → Coord → ℚ` of every operation that consumes it.  Every
  claim below concerns the selection / scoring / walking structure of the
  algorithms, which is independent of the concrete distance values.
* Nullable ORM fields are `Option`; Python truthiness on such a field
  (`if job.property.latitude:`) is `none` ↦ false, `some 0` ↦ false,
  otherwise true, and is modelled by `truthyQ`.
* Times of day are rationals counted in hours since midnight
  (`08:00` ↦ `8`); `datetime.combine`/`timedelta` arithmetic on a fixed
  date becomes plain addition and subtraction of hours, and taking
  `.time()` of a shifted datetime wraps modulo 24 (`wrap24`).  The final
  `strftime` formatting of a returned slot is dropped: the embedding
  returns the time value itself.
* The Django ORM queries are modelled by filtering an explicit in-memory
  table (`DB`); the query-result order stands for the iteration order of
  the source.  `datetime.now()` is passed in as an explicit `now`
  parameter where the source calls it.
* Python `round` rounds half to even (`pythonRound`), and `list.sort`
  with `reverse=True` is a stable descending sort, modelled by
  `List.insertionSort` with the reflexive ≥-on-scores relation.
-/

namespace FSM

/-- Python truthiness of a nullable numeric field: `None` and `0` are falsy. -/
def truthyQ : Option ℚ → Bool
  | none => false
  | some x => x != 0

/-- `backend/jobs/models.py` `ServiceType` (the fields the scheduling core reads).
`estimated_duration_hours` is a non-nullable decimal column. -/
structure ServiceType where
  id : ℕ
  name : String
  skill_level_required : String
  estimated_duration_hours : ℚ
deriving DecidableEq

/-- `backend/customers/models.py` `Property`: nullable coordinates. -/
structure Property where
  latitude : Option ℚ
  longitude : Option ℚ
deriving DecidableEq

/-- `backend/jobs/models.py` `Job` (the fields the scheduling core reads). -/
structure Job where
  id : ℕ
  description : String
  property : Property
  service_type : Option ServiceType
  status : String
  priority : String
  scheduled_date : Option ℤ
  scheduled_start_time : Option ℚ
  scheduled_end_time : Option ℚ
  assigned_technician : Option ℕ
  ai_suggested_duration : Option ℚ
deriving DecidableEq

/-- `backend/jobs/models.py` `Technician` (the fields the scheduling core reads);
`specialties` is the set of service-type ids of the many-to-many relation. -/
structure Technician where
  id : ℕ
  skill_level : String
  specialties : List ℕ
  is_available : Bool
  current_location_lat : Option ℚ
  current_location_lng : Option ℚ
  emergency_availability : Bool
deriving DecidableEq

/-- The external read-only store the core queries: the technician and job tables. -/
structure DB where
  technicians : List Technician
  jobs : List Job

/-- A geographic position `(latitude, longitude)` in degrees. -/
abbrev Coord : Type := ℚ × ℚ

/-- The guard `if job.property.latitude and job.property.longitude:` of the
source: both coordinates present and nonzero (Python truthiness). -/
def hasLoc (j : Job) : Bool :=
  truthyQ j.property.latitude && truthyQ j.property.longitude

/-- The coordinates `(float(latitude), float(longitude))` of a job's property;
only ever read under the `hasLoc` guard, so the defaults are never reached there. -/
def jobCoords (j : Job) : Coord :=
  (j.property.latitude.getD 0, j.property.longitude.getD 0)

/-- Python `round` on rationals: round half to even (banker's rounding). -/
def pythonRound (q : ℚ) : ℤ :=
  let f := ⌊q⌋
  let r := q - f
  if r < 1/2 then f
  else if 1/2 < r then f + 1
  else if f % 2 = 0 then f else f + 1

/-- Python `round(q, n)`: round to `n` decimal places, half to even. -/
def roundTo (q : ℚ) (n : ℕ) : ℚ :=
  (pythonRound (q * 10 ^ n) : ℚ) / 10 ^ n

/-- Time-of-day wrap of `datetime.combine(date, t) + timedelta(hours=d)`
followed by `.time()`: hours modulo 24, landing in `[0, 24)`. -/
def wrap24 (x : ℚ) : ℚ :=
  x - 24 * ⌊x / 24⌋

/-- Character-list leading-segment test (used to model Python substring containment). -/
def strLeads : List Char → List Char → Bool
  | [], _ => true
  | _ :: _, [] => false
  | c :: cs, d :: ds => c == d && strLeads cs ds

/-- Python `needle in haystack` on strings: substring containment. -/
def subIn (needle : List Char) : List Char → Bool
  | [] => strLeads needle []
  | c :: cs => strLeads needle (c :: cs) || subIn needle cs

/-- Python `s.lower()` (the strings involved are ASCII). -/
def lowerStr (s : String) : List Char :=
  s.data.map Char.toLower

/-- Python `keyword in text` where `text` is an already-lowercased string. -/
def containsKw (text : List Char) (keyword : String) : Bool :=
  subIn keyword.data text

/-- `SchedulingAssistant.estimate_job_complexity`: heuristic 1–10 complexity
score built from the service-type name, the priority, and keyword scans of
the description, then rounded (Python `round`, half to even) and clamped. -/
def estimate_job_complexity (job : Job) : ℤ :=
  let complexity : ℚ := 5
  let complexity :=
    match job.service_type with
    | some st =>
      let n := lowerStr st.name
      if containsKw n "panel" || containsKw n "upgrade" then complexity + 2
      else if containsKw n "emergency" then complexity + 1
      else if containsKw n "outlet" then complexity - 1
      else complexity
    | none => complexity
  let complexity :=
    if job.priority = "emergency" then complexity + 1
    else if job.priority = "high" then complexity + 1/2
    else complexity
  let description_lower := lowerStr job.description
  let complex_keywords := ["rewire", "panel", "upgrade", "troubleshoot", "repair"]
  let simple_keywords := ["outlet", "switch", "fixture", "install"]
  let complexity := complex_keywords.foldl
    (fun acc kw => if containsKw description_lower kw then acc + 1/2 else acc) complexity
  let complexity := simple_keywords.foldl
    (fun acc kw => if containsKw description_lower kw then acc - 3/10 else acc) complexity
  max 1 (min 10 (pythonRound complexity))

/-- The inner `for job in remaining_jobs:` scan of
`RouteOptimizer._nearest_neighbor_route`: threading the
`nearest_job` / `nearest_distance` accumulator pair (initially
`None` / `inf`, modelled by the accumulator being `none`) through the list,
replacing it only on a strictly smaller distance. -/
def scanNearest (D : Coord → Coord → ℚ) (cur : Coord) :
    List Job → Option (Job × ℚ) → Option (Job × ℚ)
  | [], best => best
  | j :: rest, best =>
    if hasLoc j then
      let distance := D cur (jobCoords j)
      match best with
      | none => scanNearest D cur rest (some (j, distance))
      | some (bj, bd) =>
        if distance < bd then scanNearest D cur rest (some (j, distance))
        else scanNearest D cur rest (some (bj, bd))
    else scanNearest D cur rest best

/-- The `while remaining_jobs:` loop of `_nearest_neighbor_route`.  The fuel
argument bounds the number of iterations; it is instantiated with the length
of the initial list, which the loop never exhausts because every successful
scan removes exactly one element (`remaining_jobs.remove(nearest_job)`), and
the loop breaks as soon as a scan finds no located job, appending the
remaining jobs in their input order. -/
def nnGo (D : Coord → Coord → ℚ) : ℕ → Coord → List Job → List Job
  | 0, _, remaining => remaining
  | n + 1, cur, remaining =>
    match scanNearest D cur remaining none with
    | some (nearest_job, _) =>
      let cur' := if hasLoc nearest_job then jobCoords nearest_job else cur
      nearest_job :: nnGo D n cur' (remaining.erase nearest_job)
    | none => remaining

/-- `RouteOptimizer._nearest_neighbor_route`. -/
def nearest_neighbor_route (D : Coord → Coord → ℚ) (jobs : List Job)
    (start : Coord) : List Job :=
  if jobs = [] then [] else nnGo D jobs.length start jobs

/-- Python `x or default` on a nullable numeric field (`0` falsy). -/
def pyOr (x : Option ℚ) (default : ℚ) : ℚ :=
  match x with
  | some v => if v ≠ 0 then v else default
  | none => default

/-- The status filter `status__in=['scheduled', 'in_progress']`. -/
def activeStatus (j : Job) : Bool :=
  j.status == "scheduled" || j.status == "in_progress"

/-- The ORM query of `RouteOptimizer.optimize_technician_route` and
`SchedulingAssistant.suggest_optimal_time_slot`: the technician's jobs on
the given date with status `scheduled` or `in_progress`. -/
def jobsFor (db : DB) (technician : Technician) (date : ℤ) : List Job :=
  db.jobs.filter fun j =>
    j.assigned_technician == some technician.id &&
    j.scheduled_date == some date && activeStatus j

/-- `RouteOptimizer.optimize_technician_route`: fetch the day's jobs, start
from the technician's current location (falling back coordinate-wise to the
optimizer's default start when absent or zero), and run nearest neighbor. -/
def optimize_technician_route (D : Coord → Coord → ℚ) (startDefault : Coord)
    (db : DB) (technician : Technician) (date : ℤ) : List Job :=
  let jobs := jobsFor db technician date
  if jobs = [] then []
  else
    let current_lat := pyOr technician.current_location_lat startDefault.1
    let current_lng := pyOr technician.current_location_lng startDefault.2
    nearest_neighbor_route D jobs (current_lat, current_lng)

/-- `estimate_travel_time`: hours of travel at the default 35 mph. -/
def estimate_travel_time (distance_miles : ℚ) : ℚ :=
  distance_miles / 35

/-- The duration fallback chain of `calculate_route_metrics`:
service-type duration when the service type is set and the duration truthy,
else the AI-suggested duration when truthy, else a 2-hour default. -/
def jobDurationEstimate (job : Job) : ℚ :=
  match job.service_type with
  | some st =>
    if st.estimated_duration_hours ≠ 0 then st.estimated_duration_hours
    else if truthyQ job.ai_suggested_duration then job.ai_suggested_duration.getD 0
    else 2
  | none =>
    if truthyQ job.ai_suggested_duration then job.ai_suggested_duration.getD 0
    else 2

/-- The result record of `calculate_route_metrics`.  Travel and job times are
rational hours (the source's `timedelta`s).  The source's empty-input branch
returns a dictionary without the `estimated_completion` key, modelled by
`none`; the non-empty branch stores `now + total_job_time + total_travel_time`. -/
structure RouteMetrics where
  total_distance_miles : ℚ
  total_travel_time : ℚ
  total_job_time : ℚ
  route_efficiency_score : ℚ
  estimated_completion : Option ℚ
deriving DecidableEq

/-- The per-job step of the metrics walk: add the travel leg and advance the
position when the job has truthy coordinates, then add its duration estimate. -/
def metricsStep (D : Coord → Coord → ℚ) (acc : ℚ × Coord × ℚ) (job : Job) :
    ℚ × Coord × ℚ :=
  let (td, cur, tj) := acc
  let (td, cur) := if hasLoc job then (td + D cur (jobCoords job), jobCoords job) else (td, cur)
  (td, cur, tj + jobDurationEstimate job)

/-- `RouteOptimizer.calculate_route_metrics`. -/
def calculate_route_metrics (D : Coord → Coord → ℚ) (now : ℚ) (jobs : List Job)
    (start : Coord) : RouteMetrics :=
  if jobs = [] then
    { total_distance_miles := 0
      total_travel_time := 0
      total_job_time := 0
      route_efficiency_score := 0
      estimated_completion := none }
  else
    let (total_distance, _, total_job_duration) := jobs.foldl (metricsStep D) (0, start, 0)
    let total_travel_time := estimate_travel_time total_distance
    let efficiency_score : ℚ :=
      if 0 < total_travel_time then
        total_job_duration / (total_job_duration + total_travel_time) * 100
      else 100
    { total_distance_miles := roundTo total_distance 2
      total_travel_time := total_travel_time
      total_job_time := total_job_duration
      route_efficiency_score := roundTo efficiency_score 1
      estimated_completion := some (now + total_job_duration + total_travel_time) }

/-- The required skill of a job:
`job.service_type.skill_level_required if job.service_type else 'apprentice'`. -/
def requiredSkill (job : Job) : String :=
  match job.service_type with
  | some st => st.skill_level_required
  | none => "apprentice"

/-- The `skill_hierarchy` dictionary of `suggest_technician_for_job`, with the
`.get` default of all three levels for an unknown key. -/
def skillHierarchy (required : String) : List String :=
  if required = "apprentice" then ["apprentice", "journeyman", "master"]
  else if required = "journeyman" then ["journeyman", "master"]
  else if required = "master" then ["master"]
  else ["apprentice", "journeyman", "master"]

/-- The candidate pool of `suggest_technician_for_job`: available technicians
whose skill level is in the hierarchy list of the required skill, further
restricted to `emergency_availability` for emergency-priority jobs. -/
def eligibleCandidates (db : DB) (job : Job) : List Technician :=
  let eligible_skills := skillHierarchy (requiredSkill job)
  let candidates := db.technicians.filter fun t =>
    eligible_skills.contains t.skill_level && t.is_available
  if job.priority = "emergency" then
    candidates.filter fun t => t.emergency_availability
  else candidates

/-- The workload query of `suggest_technician_for_job`: the candidate's jobs
on the job's scheduled date (today when unscheduled) with active status. -/
def countSameDayJobs (db : DB) (now : ℤ) (job : Job) (t : Technician) : ℕ :=
  (db.jobs.filter fun j =>
    j.assigned_technician == some t.id &&
    j.scheduled_date == some (job.scheduled_date.getD now) && activeStatus j).length

/-- The technician's current coordinates; only read under the truthiness guard. -/
def techCoords (t : Technician) : Coord :=
  (t.current_location_lat.getD 0, t.current_location_lng.getD 0)

/-- The sequential score accumulation of the candidate loop of
`suggest_technician_for_job`, in source order: skill bonus, specialty bonus,
proximity bonus, workload bonus. -/
def scoreOf (D : Coord → Coord → ℚ) (db : DB) (now : ℤ) (job : Job)
    (t : Technician) : ℤ :=
  let score : ℤ := 0
  let score :=
    if t.skill_level = requiredSkill job then score + 10
    else if t.skill_level = "master" then score + 5
    else score
  let score :=
    match job.service_type with
    | some st => if t.specialties.contains st.id then score + 15 else score
    | none => score
  let score :=
    if truthyQ t.current_location_lat && truthyQ t.current_location_lng &&
       truthyQ job.property.latitude && truthyQ job.property.longitude then
      let distance := D (techCoords t) (jobCoords job)
      if distance ≤ 5 then score + 10
      else if distance ≤ 15 then score + 5
      else score
    else score
  let current_jobs := countSameDayJobs db now job t
  if current_jobs = 0 then score + 10
  else if current_jobs ≤ 2 then score + 5
  else score

/-- Python's stable `list.sort(key=score, reverse=True)`: a stable sort by
descending score, ties keeping the original order. -/
def sortScored (l : List (Technician × ℤ)) : List (Technician × ℤ) :=
  l.insertionSort fun a b => b.2 ≤ a.2

/-- `SchedulingAssistant.suggest_technician_for_job`: score the eligible
candidates, stable-sort by descending score, return the first five. -/
def suggest_technician_for_job (D : Coord → Coord → ℚ) (db : DB) (now : ℤ)
    (job : Job) : List Technician :=
  let scored_candidates := (eligibleCandidates db job).map fun t =>
    (t, scoreOf D db now job t)
  ((sortScored scored_candidates).take 5).map Prod.fst

/-- Spec wording, skill bonus: +10 for an exact skill-level match, else +5
if the technician is a master. -/
def skillBonus (job : Job) (t : Technician) : ℤ :=
  if t.skill_level = requiredSkill job then 10
  else if t.skill_level = "master" then 5
  else 0

/-- Spec wording, specialty bonus: +15 if the technician's specialty list
contains the job's service type. -/
def specialtyBonus (job : Job) (t : Technician) : ℤ :=
  match job.service_type with
  | some st => if t.specialties.contains st.id then 15 else 0
  | none => 0

/-- Spec wording, proximity bonus: when both locations are known, +10 within
5 miles, +5 within 15 miles, +0 beyond. -/
def proximityBonus (D : Coord → Coord → ℚ) (job : Job) (t : Technician) : ℤ :=
  if truthyQ t.current_location_lat && truthyQ t.current_location_lng &&
     truthyQ job.property.latitude && truthyQ job.property.longitude then
    if D (techCoords t) (jobCoords job) ≤ 5 then 10
    else if D (techCoords t) (jobCoords job) ≤ 15 then 5
    else 0
  else 0

/-- Spec wording, workload bonus: +10 for zero same-day jobs, +5 for one or
two, +0 for three or more. -/
def workloadBonus (db : DB) (now : ℤ) (job : Job) (t : Technician) : ℤ :=
  if countSameDayJobs db now job t = 0 then 10
  else if countSameDayJobs db now job t ≤ 2 then 5
  else 0

/-- Spec wording: a candidate's score is the sum of the four independent bonuses. -/
def specScoreOf (D : Coord → Coord → ℚ) (db : DB) (now : ℤ) (job : Job)
    (t : Technician) : ℤ :=
  skillBonus job t + specialtyBonus job t + proximityBonus D job t +
    workloadBonus db now job t

/-- Spec wording for the technician suggestion: the first at-most-five
candidates of the eligible list sorted stably by descending summed score. -/
def specSuggestTechnicians (D : Coord → Coord → ℚ) (db : DB) (now : ℤ)
    (job : Job) : List Technician :=
  ((sortScored ((eligibleCandidates db job).map fun t =>
    (t, specScoreOf D db now job t))).take 5).map Prod.fst

/-- Spec wording for nearest-neighbor selection: the first job of the list at
minimum distance (the first one whose distance is at most every other's). -/
def firstMinBy (f : Job → ℚ) (l : List Job) : Option Job :=
  l.find? fun j => l.all fun k => decide (f j ≤ f k)

/-- Spec wording for the nearest-neighbor loop: repeatedly select the
not-yet-visited job at minimum distance from the current position (first in
input order on ties), append it, advance to its coordinates. -/
def greedyGo (D : Coord → Coord → ℚ) : ℕ → Coord → List Job → List Job
  | 0, _, _ => []
  | n + 1, cur, remaining =>
    match firstMinBy (fun j => D cur (jobCoords j)) remaining with
    | some j => j :: greedyGo D n (jobCoords j) (remaining.erase j)
    | none => []

/-- Spec wording for the whole nearest-neighbor route. -/
def greedyRouteSpec (D : Coord → Coord → ℚ) (start : Coord)
    (jobs : List Job) : List Job :=
  greedyGo D jobs.length start jobs

/-- The duration estimate of `suggest_optimal_time_slot` for the job being
placed: the service-type duration when set and truthy, else a 2-hour default. -/
def estDuration (job : Job) : ℚ :=
  match job.service_type with
  | some st => if st.estimated_duration_hours ≠ 0 then st.estimated_duration_hours else 2
  | none => 2

/-- Where the cursor moves after an existing job that starts at `s`: its
explicit end time when present, else `s` plus its own service-type duration
(a bare 2 when it has no service type), wrapped to a time of day. -/
def existingEnd (e : Job) (s : ℚ) : ℚ :=
  match e.scheduled_end_time with
  | some t => t
  | none =>
    let est : ℚ :=
      match e.service_type with
      | some st => st.estimated_duration_hours
      | none => 2
    wrap24 (s + est)

/-- The gap walk of `suggest_optimal_time_slot`: from the cursor (initially
08:00), return the cursor as soon as the gap to the next started job (or to
the 17:00 end of day) holds the duration; jobs without a start time are
passed over without moving the cursor. -/
def slotGo (dur : ℚ) : ℚ → List Job → Option ℚ
  | current_time, [] =>
    if dur ≤ 17 - current_time then some current_time else none
  | current_time, e :: rest =>
    match e.scheduled_start_time with
    | some s =>
      if dur ≤ s - current_time then some current_time
      else slotGo dur (existingEnd e s) rest
    | none => slotGo dur current_time rest

/-- `SchedulingAssistant.suggest_optimal_time_slot`.  `existing_jobs` is the
result of the `order_by('scheduled_start_time')` query for the technician and
date — the ordering is performed by the external store, so the ordered list is
taken as the input; the `strftime('%H:%M')` formatting of the returned time is
dropped (the time value itself is returned). -/
def suggest_optimal_time_slot (job : Job) (existing_jobs : List Job) : Option ℚ :=
  slotGo (estDuration job) 8 existing_jobs

/-- A day fully booked back to back from `c`: each listed job starts exactly
at the cursor and the last one ends at or after 17:00 (so the booked time
from 08:00 sums to at least 9 hours when `c = 8`). -/
def chainedFrom (c : ℚ) : List Job → Prop
  | [] => 17 ≤ c
  | e :: rest => e.scheduled_start_time = some c ∧ chainedFrom (existingEnd e c) rest

/-- Rank of the three skill levels in the hierarchy
apprentice < journeyman < master. -/
def skillRank (s : String) : ℕ :=
  if s = "journeyman" then 1 else if s = "master" then 2 else 0

/-- A concrete computable distance oracle (taxicab) used to instantiate the
distance parameter on concrete inputs. -/
def Dtaxi (a b : Coord) : ℚ :=
  |a.1 - b.1| + |a.2 - b.2|

/-- A job with every optional field absent (concrete evaluation input). -/
def baseJob : Job :=
  { id := 0, description := "", property := ⟨none, none⟩, service_type := none
    status := "scheduled", priority := "normal", scheduled_date := none
    scheduled_start_time := none, scheduled_end_time := none
    assigned_technician := none, ai_suggested_duration := none }

/-- A job whose property sits at latitude 0, longitude 1. -/
def jobAt01 : Job :=
  { baseJob with id := 1, property := ⟨some 0, some 1⟩ }

/-- A job whose property sits at latitude 0, longitude 2. -/
def jobAt02 : Job :=
  { baseJob with id := 2, property := ⟨some 0, some 2⟩ }

/-- The spec's panel-upgrade scenario job: service type named "Panel Upgrade",
priority high, description "upgrade main panel". -/
def panelJob : Job :=
  { baseJob with id := 3, description := "upgrade main panel", priority := "high"
                 service_type := some ⟨1, "Panel Upgrade", "journeyman", 4⟩ }

/-- A located job (concrete evaluation input). -/
def jobP1 : Job :=
  { baseJob with id := 4, property := ⟨some 3, some 4⟩ }

/-- A second located job (concrete evaluation input). -/
def jobP2 : Job :=
  { baseJob with id := 5, property := ⟨some 6, some 8⟩ }

/-- An existing job booked from 08:00 to 17:00 (concrete evaluation input). -/
def bookedJob : Job :=
  { baseJob with id := 6, scheduled_start_time := some 8, scheduled_end_time := some 17 }

/-- An existing job with a start time but no end time and no service type. -/
def startNoEndJob : Job :=
  { baseJob with id := 7, scheduled_start_time := some 9 }

/-- An available master technician with emergency availability. -/
def techMaster : Technician :=
  { id := 1, skill_level := "master", specialties := [], is_available := true
    current_location_lat := none, current_location_lng := none
    emergency_availability := true }

/-- A job requiring master-level skill (concrete evaluation input). -/
def jobMaster : Job :=
  { baseJob with id := 8, service_type := some ⟨2, "Panel", "master", 2⟩ }

/-- A one-technician store (concrete evaluation input). -/
def db1 : DB := ⟨[techMaster], []⟩

/-- The empty store (concrete evaluation input). -/
def dbEmpty : DB := ⟨[], []⟩

/-- The first-wins running minimum of the scan loop: starting from candidate
`b`, replace it only when a strictly smaller value appears. -/
def accMin (f : Job → ℚ) : Job → List Job → Job
  | b, [] => b
  | b, j :: rest => if f j < f b then accMin f j rest else accMin f b rest

/-- C5: for every job — any priority, service type, or description —
`estimate_job_complexity` returns an integer in the inclusive range [1, 10],
the rounded and clamped heuristic score. -/
theorem estimate_job_complexity_in_range (job : Job) :
    1 ≤ estimate_job_complexity job ∧ estimate_job_complexity job ≤ 10 := by
  constructor
  · simp only [estimate_job_complexity]
    exact le_max_left _ _
  · simp only [estimate_job_complexity]
    exact max_le (by norm_num) (min_le_left _ _)

/-- C9: for the job with service type "Panel Upgrade", priority "high" and
description "upgrade main panel", the complexity estimate is at least 7
(it evaluates to 8 = round(5 + 2 + 0.5 + 0.5 + 0.5)). -/
theorem panel_upgrade_complexity_at_least_seven :
    7 ≤ estimate_job_complexity panelJob := by
  have h1 : containsKw (lowerStr "Panel Upgrade") "panel" = true := by decide
  have h2 : containsKw (lowerStr "upgrade main panel") "rewire" = false := by decide
  have h3 : containsKw (lowerStr "upgrade main panel") "panel" = true := by decide
  have h4 : containsKw (lowerStr "upgrade main panel") "upgrade" = true := by decide
  have h5 : containsKw (lowerStr "upgrade main panel") "troubleshoot" = false := by decide
  have h6 : containsKw (lowerStr "upgrade main panel") "repair" = false := by decide
  have h7 : containsKw (lowerStr "upgrade main panel") "outlet" = false := by decide
  have h8 : containsKw (lowerStr "upgrade main panel") "switch" = false := by decide
  have h9 : containsKw (lowerStr "upgrade main panel") "fixture" = false := by decide
  have h10 : containsKw (lowerStr "upgrade main panel") "install" = false := by decide
  have hs : ("high" : String) ≠ "emergency" := by decide
  simp only [estimate_job_complexity, panelJob, baseJob, List.foldl_cons, List.foldl_nil,
    h1, h2, h3, h4, h5, h6, h7, h8, h9, h10]
  norm_num [pythonRound, hs]

/-- C8: the code violates the closer-first scenario.  With the technician at
(0, 0) and the two jobs' properties at (0, 1) and (0, 2), both latitudes are
0, which the guard `if job.property.latitude and job.property.longitude`
treats as missing (Python truthiness), so neither job enters the
distance-based selection and the route keeps the input order: presenting the
farther job first returns it first, for every distance function. -/
theorem latitude_zero_defeats_closer_first (D : Coord → Coord → ℚ) :
    nearest_neighbor_route D [jobAt02, jobAt01] (0, 0) = [jobAt02, jobAt01] ∧
    nearest_neighbor_route D [jobAt02, jobAt01] (0, 0) ≠ [jobAt01, jobAt02] := by
  have h1 : nearest_neighbor_route D [jobAt02, jobAt01] (0, 0) = [jobAt02, jobAt01] := rfl
  refine ⟨h1, ?_⟩
  rw [h1]
  decide

/-- C6: a technician with no matching jobs on the date gets the empty route,
and the route metrics of an empty job list are all zero with efficiency 0
(and no completion estimate), with no error raised. -/
theorem empty_day_yields_empty_route_and_zero_metrics
    (D : Coord → Coord → ℚ) (startDefault : Coord) (db : DB)
    (technician : Technician) (date : ℤ) (now : ℚ) (s : Coord)
    (h : jobsFor db technician date = []) :
    optimize_technician_route D startDefault db technician date = [] ∧
    calculate_route_metrics D now [] s = ⟨0, 0, 0, 0, none⟩ := by
  constructor
  · simp [optimize_technician_route, h]
  · rfl

/-- Witness for `empty_day_yields_empty_route_and_zero_metrics` on the empty store. -/
theorem empty_day_yields_empty_route_and_zero_metrics_witness :
    optimize_technician_route Dtaxi (0, 0) dbEmpty techMaster 0 = [] ∧
    calculate_route_metrics Dtaxi 0 [] (0, 0) = ⟨0, 0, 0, 0, none⟩ :=
  empty_day_yields_empty_route_and_zero_metrics Dtaxi (0, 0) dbEmpty techMaster 0 0
    (0, 0) rfl

/-- The gap walk ignores existing jobs without a start time: walking a list is
walking its started sublist. -/
theorem slotGo_filter_started (dur : ℚ) :
    ∀ (l : List Job) (c : ℚ),
      slotGo dur c l = slotGo dur c (l.filter fun e => e.scheduled_start_time.isSome) := by
  intro l
  induction l with
  | nil => intro c; rfl
  | cons e rest ih =>
    intro c
    cases h : e.scheduled_start_time with
    | none => simp [slotGo, h, List.filter_cons, ih c]
    | some s =>
      by_cases hd : dur ≤ s - c
      · simp [slotGo, h, List.filter_cons, hd]
      · simp [slotGo, h, List.filter_cons, hd, ih]

/-- C10: existing same-day jobs with no `scheduled_start_time` are skipped
entirely by the gap search — they never advance the cursor and never consume
time — so the returned slot is computed solely from the jobs that carry an
explicit start time (and is guaranteed disjoint only from those). -/
theorem time_slot_skips_unstarted_jobs (job : Job) (existing_jobs : List Job) :
    suggest_optimal_time_slot job existing_jobs =
      suggest_optimal_time_slot job
        (existing_jobs.filter fun e => e.scheduled_start_time.isSome) := by
  unfold suggest_optimal_time_slot
  exact slotGo_filter_started _ existing_jobs 8

/-- Any slot the gap walk returns lies in [8, 17), provided the duration is
positive, the cursor starts in [8, 17], and every started job lies inside the
workday with its end not before its start. -/
theorem slotGo_some_range :
    ∀ (l : List Job) (dur c : ℚ), 0 < dur → 8 ≤ c → c ≤ 17 →
      (∀ e ∈ l, ∀ s0, e.scheduled_start_time = some s0 →
        8 ≤ s0 ∧ s0 ≤ existingEnd e s0 ∧ existingEnd e s0 ≤ 17) →
      ∀ u, slotGo dur c l = some u → 8 ≤ u ∧ u < 17 := by
  intro l
  induction l with
  | nil =>
    intro dur c hdur hc8 hc17 _ u hu
    simp only [slotGo] at hu
    by_cases h : dur ≤ 17 - c
    · rw [if_pos h] at hu
      injection hu with hu
      subst hu
      exact ⟨hc8, by linarith⟩
    · rw [if_neg h] at hu
      cases hu
  | cons e rest ih =>
    intro dur c hdur hc8 hc17 hsane u hu
    have hsane' : ∀ e' ∈ rest, ∀ s0, e'.scheduled_start_time = some s0 →
        8 ≤ s0 ∧ s0 ≤ existingEnd e' s0 ∧ existingEnd e' s0 ≤ 17 :=
      fun e' he' => hsane e' (List.mem_cons_of_mem _ he')
    cases hst : e.scheduled_start_time with
    | none =>
      simp only [slotGo, hst] at hu
      exact ih dur c hdur hc8 hc17 hsane' u hu
    | some s =>
      obtain ⟨h8s, hse, he17⟩ := hsane e (List.mem_cons_self _ _) s hst
      simp only [slotGo, hst] at hu
      by_cases hgap : dur ≤ s - c
      · rw [if_pos hgap] at hu
        injection hu with hu
        subst hu
        exact ⟨hc8, by linarith⟩
      · rw [if_neg hgap] at hu
        exact ih dur (existingEnd e s) hdur (by linarith) (by linarith) hsane' u hu

/-- If a window of the required duration fits in the workday and avoids every
started job's occupied interval, the gap walk returns a slot. -/
theorem slotGo_gap_isSome :
    ∀ (l : List Job) (dur c t : ℚ), c ≤ t → t + dur ≤ 17 →
      (∀ e ∈ l, ∀ s0, e.scheduled_start_time = some s0 →
        t + dur ≤ s0 ∨ existingEnd e s0 ≤ t) →
      ∃ u, slotGo dur c l = some u := by
  intro l
  induction l with
  | nil =>
    intro dur c t hct h17 _
    refine ⟨c, ?_⟩
    simp only [slotGo]
    rw [if_pos (by linarith)]
  | cons e rest ih =>
    intro dur c t hct h17 havoid
    have havoid' : ∀ e' ∈ rest, ∀ s0, e'.scheduled_start_time = some s0 →
        t + dur ≤ s0 ∨ existingEnd e' s0 ≤ t :=
      fun e' he' => havoid e' (List.mem_cons_of_mem _ he')
    cases hst : e.scheduled_start_time with
    | none =>
      obtain ⟨u, hu⟩ := ih dur c t hct h17 havoid'
      exact ⟨u, by simp only [slotGo, hst]; exact hu⟩
    | some s =>
      by_cases hgap : dur ≤ s - c
      · exact ⟨c, by simp only [slotGo, hst]; rw [if_pos hgap]⟩
      · rcases havoid e (List.mem_cons_self _ _) s hst with hleft | hright
        · exact absurd (by linarith : dur ≤ s - c) hgap
        · obtain ⟨u, hu⟩ := ih dur (existingEnd e s) t hright h17 havoid'
          exact ⟨u, by simp only [slotGo, hst]; rw [if_neg hgap]; exact hu⟩

/-- A day booked back to back from the cursor to 17:00 or later leaves the
gap walk with no slot, for any positive duration. -/
theorem slotGo_chained_none :
    ∀ (l : List Job) (dur c : ℚ), 0 < dur → chainedFrom c l → slotGo dur c l = none := by
  intro l
  induction l with
  | nil =>
    intro dur c hdur hch
    simp only [chainedFrom] at hch
    simp only [slotGo]
    rw [if_neg (by linarith)]
  | cons e rest ih =>
    intro dur c hdur hch
    simp only [chainedFrom] at hch
    obtain ⟨h1, h2⟩ := hch
    simp only [slotGo, h1]
    rw [if_neg (by linarith)]
    exact ih dur (existingEnd e c) hdur h2

/-- C4: whenever a window of at least the job's estimated duration fits inside
the workday and avoids every started existing job, `suggest_optimal_time_slot`
returns a time in [08:00, 17:00); and when the technician's day is booked back
to back from 08:00 through 17:00 (at least 9 hours of consecutive jobs), it
returns the no-slot sentinel `none` rather than raising.  The duration is
positive and existing started jobs lie inside the workday with ends not before
starts. -/
theorem time_slot_gap_and_fully_booked :
    (∀ (job : Job) (existing : List Job),
      0 < estDuration job →
      (∀ e ∈ existing, ∀ s0, e.scheduled_start_time = some s0 →
        8 ≤ s0 ∧ s0 ≤ existingEnd e s0 ∧ existingEnd e s0 ≤ 17) →
      (∃ t, 8 ≤ t ∧ t + estDuration job ≤ 17 ∧
        ∀ e ∈ existing, ∀ s0, e.scheduled_start_time = some s0 →
          t + estDuration job ≤ s0 ∨ existingEnd e s0 ≤ t) →
      ∃ u, suggest_optimal_time_slot job existing = some u ∧ 8 ≤ u ∧ u < 17) ∧
    (∀ (job : Job) (existing : List Job),
      0 < estDuration job → chainedFrom 8 existing →
      suggest_optimal_time_slot job existing = none) := by
  constructor
  · intro job existing hdur hsane hgap
    obtain ⟨t, ht8, ht17, havoid⟩ := hgap
    obtain ⟨u, hu⟩ :=
      slotGo_gap_isSome existing (estDuration job) 8 t ht8 ht17 havoid
    obtain ⟨h8u, hu17⟩ :=
      slotGo_some_range existing (estDuration job) 8 hdur le_rfl (by norm_num) hsane u hu
    exact ⟨u, hu, h8u, hu17⟩
  · intro job existing hdur hch
    exact slotGo_chained_none existing (estDuration job) 8 hdur hch

/-- Witness for `time_slot_gap_and_fully_booked`: a 2-hour job against an
empty schedule gets a slot in range, and against a day booked 08:00–17:00 gets
`none`. -/
theorem time_slot_gap_and_fully_booked_witness :
    (∃ u, suggest_optimal_time_slot baseJob [] = some u ∧ 8 ≤ u ∧ u < 17) ∧
    suggest_optimal_time_slot baseJob [bookedJob] = none := by
  have hdur : 0 < estDuration baseJob := by norm_num [estDuration, baseJob]
  constructor
  · refine (time_slot_gap_and_fully_booked.1 baseJob [] hdur ?_ ?_)
    · intro e he
      cases he
    · refine ⟨8, le_rfl, ?_, ?_⟩
      · have : estDuration baseJob = 2 := by norm_num [estDuration, baseJob]
        rw [this]
        norm_num
      · intro e he
        cases he
  · refine time_slot_gap_and_fully_booked.2 baseJob [bookedJob] hdur ?_
    simp only [chainedFrom, bookedJob, baseJob, existingEnd]
    norm_num

/-- The scan finds nothing when no job passes the coordinate guard: the
accumulator is returned unchanged. -/
theorem scanNearest_no_loc (D : Coord → Coord → ℚ) (cur : Coord) :
    ∀ (l : List Job) (acc : Option (Job × ℚ)), (∀ j ∈ l, hasLoc j = false) →
      scanNearest D cur l acc = acc := by
  intro l
  induction l with
  | nil => intro acc _; rfl
  | cons j rest ih =>
    intro acc h
    have hj : hasLoc j = false := h j (List.mem_cons_self _ _)
    simp only [scanNearest, hj, Bool.false_eq_true, if_false]
    exact ih acc fun k hk => h k (List.mem_cons_of_mem _ hk)

/-- C7: the core degrades silently on missing optional data instead of
raising: empty job lists give zero metrics; jobs with no usable coordinates
are passed through in input order by the nearest-neighbor fallback; a job
with neither a service type nor an AI-suggested duration gets the 2-hour
default in the metrics walk; an empty technician table gives an empty
suggestion list; and in the time-slot gap walk an existing job with a start
but no end time and no service type advances the cursor along the defined
fallback branch (start + the literal 2, wrapped to a time of day). -/
theorem missing_optional_data_degrades_gracefully
    (D : Coord → Coord → ℚ) (now : ℚ) (nowDate : ℤ) (s : Coord) :
    (calculate_route_metrics D now [] s = ⟨0, 0, 0, 0, none⟩) ∧
    (∀ jobs : List Job, (∀ j ∈ jobs, hasLoc j = false) →
      nearest_neighbor_route D jobs s = jobs) ∧
    (∀ job : Job, job.service_type = none → job.ai_suggested_duration = none →
      jobDurationEstimate job = 2) ∧
    (∀ (jobsTable : List Job) (job : Job),
      suggest_technician_for_job D ⟨[], jobsTable⟩ nowDate job = []) ∧
    (∀ (dur cur s0 : ℚ) (e : Job) (rest : List Job),
      e.scheduled_start_time = some s0 → e.scheduled_end_time = none →
      e.service_type = none →
      slotGo dur cur (e :: rest) =
        if dur ≤ s0 - cur then some cur else slotGo dur (wrap24 (s0 + 2)) rest) := by
  refine ⟨rfl, ?_, ?_, ?_, ?_⟩
  · intro jobs h
    cases jobs with
    | nil => rfl
    | cons j rest =>
      simp only [nearest_neighbor_route]
      rw [if_neg (by simp)]
      simp only [List.length_cons, nnGo]
      rw [scanNearest_no_loc D s (j :: rest) none h]
  · intro job h1 h2
    simp [jobDurationEstimate, h1, h2, truthyQ]
  · intro jobsTable job
    simp [suggest_technician_for_job, eligibleCandidates, sortScored, List.insertionSort]
  · intro dur cur s0 e rest h1 h2 h3
    simp only [slotGo, h1, existingEnd, h2, h3]

/-- Witness for `missing_optional_data_degrades_gracefully` on concrete
missing-data inputs. -/
theorem missing_optional_data_degrades_gracefully_witness :
    calculate_route_metrics Dtaxi 0 [] (0, 0) = ⟨0, 0, 0, 0, none⟩ ∧
    nearest_neighbor_route Dtaxi [baseJob] (0, 0) = [baseJob] ∧
    jobDurationEstimate baseJob = 2 ∧
    suggest_technician_for_job Dtaxi ⟨[], []⟩ 0 baseJob = [] ∧
    slotGo 2 8 [startNoEndJob] =
      if (2 : ℚ) ≤ 9 - 8 then some 8 else slotGo 2 (wrap24 (9 + 2)) [] := by
  have h := missing_optional_data_degrades_gracefully Dtaxi 0 0 (0, 0)
  exact ⟨h.1, h.2.1 [baseJob] (by decide), h.2.2.1 baseJob rfl rfl,
    h.2.2.2.1 [] baseJob, h.2.2.2.2 2 8 9 startNoEndJob [] rfl rfl rfl⟩

/-- Every technician the suggestion returns came from the eligible-candidate
pool: the top-5 cut of the stable sort is a sublist of the scored list, which
is the candidate list paired with scores. -/
theorem mem_eligible_of_mem_suggest
    (D : Coord → Coord → ℚ) (db : DB) (now : ℤ) (job : Job) (t : Technician)
    (hmem : t ∈ suggest_technician_for_job D db now job) :
    t ∈ eligibleCandidates db job := by
  simp only [suggest_technician_for_job] at hmem
  obtain ⟨p, hp, hpt⟩ := List.mem_map.1 hmem
  have hp2 : p ∈ sortScored ((eligibleCandidates db job).map fun t' =>
      (t', scoreOf D db now job t')) := List.take_subset _ _ hp
  have hp3 : p ∈ (eligibleCandidates db job).map fun t' =>
      (t', scoreOf D db now job t') :=
    (List.perm_insertionSort _ _).mem_iff.1 hp2
  obtain ⟨t', ht', hteq⟩ := List.mem_map.1 hp3
  have : t' = t := by rw [← hteq] at hpt; exact hpt
  exact this ▸ ht'

/-- C2: every technician returned by `suggest_technician_for_job` is marked
available and has skill level at or above the job's required level in the
hierarchy apprentice < journeyman < master (in particular a master-requiring
job never yields an apprentice), and for an emergency-priority job it
additionally has `emergency_availability` set. -/
theorem suggested_technician_meets_requirements
    (D : Coord → Coord → ℚ) (db : DB) (now : ℤ) (job : Job) (t : Technician)
    (hreq : requiredSkill job ∈ (["apprentice", "journeyman", "master"] : List String))
    (hmem : t ∈ suggest_technician_for_job D db now job) :
    t.is_available = true ∧
    skillRank (requiredSkill job) ≤ skillRank t.skill_level ∧
    (job.priority = "emergency" → t.emergency_availability = true) := by
  have hcand := mem_eligible_of_mem_suggest D db now job t hmem
  simp only [eligibleCandidates] at hcand
  have hsplit : (t ∈ db.technicians.filter fun t' =>
      (skillHierarchy (requiredSkill job)).contains t'.skill_level && t'.is_available) ∧
      (job.priority = "emergency" → t.emergency_availability = true) := by
    by_cases hp : job.priority = "emergency"
    · rw [if_pos hp] at hcand
      have h := List.mem_filter.1 hcand
      exact ⟨h.1, fun _ => h.2⟩
    · rw [if_neg hp] at hcand
      exact ⟨hcand, fun h => absurd h hp⟩
  obtain ⟨hbase, hemerg⟩ := hsplit
  obtain ⟨-, hpred⟩ := List.mem_filter.1 hbase
  simp only [Bool.and_eq_true] at hpred
  obtain ⟨hcont, havail⟩ := hpred
  have hskill_in : t.skill_level ∈ skillHierarchy (requiredSkill job) :=
    List.elem_iff.1 hcont
  refine ⟨havail, ?_, hemerg⟩
  have hreq' : requiredSkill job = "apprentice" ∨ requiredSkill job = "journeyman" ∨
      requiredSkill job = "master" := by simpa using hreq
  rcases hreq' with h | h | h <;> rw [h] at hskill_in ⊢ <;>
    simp only [skillHierarchy, if_pos rfl, reduceIte] at hskill_in <;>
    [skip; skip; skip]
  · simp [skillRank]
  · have : t.skill_level = "journeyman" ∨ t.skill_level = "master" := by
      simpa [skillHierarchy] using hskill_in
    rcases this with h' | h' <;> simp [skillRank, h']
  · have : t.skill_level = "master" := by simpa [skillHierarchy] using hskill_in
    simp [skillRank, this]

/-- Witness for `suggested_technician_meets_requirements`: the master
technician returned for a master-requiring job is available, ranked at the
required level, and emergency-capable. -/
theorem suggested_technician_meets_requirements_witness :
    techMaster.is_available = true ∧
    skillRank (requiredSkill jobMaster) ≤ skillRank techMaster.skill_level ∧
    (jobMaster.priority = "emergency" → techMaster.emergency_availability = true) :=
  suggested_technician_meets_requirements Dtaxi db1 0 jobMaster techMaster
    (by decide) (by decide)

set_option maxHeartbeats 1600000 in
/-- The sequential score accumulation of the candidate loop equals the sum of
the four independent bonuses the spec describes. -/
theorem scoreOf_eq_specScoreOf (D : Coord → Coord → ℚ) (db : DB) (now : ℤ)
    (job : Job) (t : Technician) :
    scoreOf D db now job t = specScoreOf D db now job t := by
  unfold scoreOf specScoreOf skillBonus specialtyBonus proximityBonus workloadBonus
  generalize countSameDayJobs db now job t = w
  generalize D (techCoords t) (jobCoords job) = d
  cases job.service_type <;> dsimp only <;> split_ifs <;> omega

/-- C3: the technician suggestion is exactly the spec's pipeline — each
eligible candidate scored by the sum of the skill (+10 exact / +5 master),
specialty (+15), proximity (+10 within 5 miles / +5 within 15) and workload
(+10 for 0 same-day jobs / +5 for 1–2) bonuses, stably sorted by descending
score (ties keep query order), first five returned — and zero eligible
candidates yield the empty list rather than an error. -/
theorem suggest_technician_scoring_matches_spec
    (D : Coord → Coord → ℚ) (db : DB) (now : ℤ) (job : Job) :
    suggest_technician_for_job D db now job = specSuggestTechnicians D db now job ∧
    (∀ db2 : DB, eligibleCandidates db2 job = [] →
      suggest_technician_for_job D db2 now job = []) := by
  constructor
  · unfold suggest_technician_for_job specSuggestTechnicians
    have h : (fun t => (t, scoreOf D db now job t)) =
        (fun t => (t, specScoreOf D db now job t)) :=
      funext fun t => by rw [scoreOf_eq_specScoreOf]
    rw [h]
  · intro db2 h
    simp [suggest_technician_for_job, h, sortScored, List.insertionSort]

/-- Witness for `suggest_technician_scoring_matches_spec` on a one-technician
store and on a store with no eligible candidates. -/
theorem suggest_technician_scoring_matches_spec_witness :
    suggest_technician_for_job Dtaxi db1 0 jobMaster =
      specSuggestTechnicians Dtaxi db1 0 jobMaster ∧
    suggest_technician_for_job Dtaxi dbEmpty 0 baseJob = [] := by
  have h := suggest_technician_scoring_matches_spec Dtaxi db1 0 jobMaster
  have h2 := suggest_technician_scoring_matches_spec Dtaxi dbEmpty 0 baseJob
  exact ⟨h.1, h2.2 dbEmpty (by decide)⟩

/-- The scan with a populated accumulator computes the first-wins running
minimum `accMin`, when every remaining job passes the coordinate guard. -/
theorem scanNearest_acc (D : Coord → Coord → ℚ) (cur : Coord) :
    ∀ (l : List Job) (b : Job), (∀ j ∈ l, hasLoc j = true) →
      scanNearest D cur l (some (b, D cur (jobCoords b))) =
        some (accMin (fun j => D cur (jobCoords j)) b l,
          D cur (jobCoords (accMin (fun j => D cur (jobCoords j)) b l))) := by
  intro l
  induction l with
  | nil => intro b _; rfl
  | cons j rest ih =>
    intro b h
    have hj : hasLoc j = true := h j (List.mem_cons_self _ _)
    have h' : ∀ k ∈ rest, hasLoc k = true := fun k hk => h k (List.mem_cons_of_mem _ hk)
    simp only [scanNearest, hj, if_true, accMin]
    by_cases hlt : D cur (jobCoords j) < D cur (jobCoords b)
    · rw [if_pos hlt, if_pos hlt]
      exact ih j h'
    · rw [if_neg hlt, if_neg hlt]
      exact ih b h'

/-- The scan over a nonempty all-located list starting from the empty
accumulator returns the first-wins minimum of the whole list. -/
theorem scanNearest_cons (D : Coord → Coord → ℚ) (cur : Coord) (x : Job)
    (xs : List Job) (h : ∀ j ∈ x :: xs, hasLoc j = true) :
    scanNearest D cur (x :: xs) none =
      some (accMin (fun j => D cur (jobCoords j)) x xs,
        D cur (jobCoords (accMin (fun j => D cur (jobCoords j)) x xs))) := by
  have hx : hasLoc x = true := h x (List.mem_cons_self _ _)
  have h' : ∀ k ∈ xs, hasLoc k = true := fun k hk => h k (List.mem_cons_of_mem _ hk)
  simp only [scanNearest, hx, if_true]
  exact scanNearest_acc D cur xs x h'

/-- `accMin` splits its input around the selected element: everything before
it is strictly farther, and it is a minimum of the whole list. -/
theorem accMin_spec (f : Job → ℚ) :
    ∀ (xs : List Job) (x : Job),
      ∃ p s, x :: xs = p ++ accMin f x xs :: s ∧
        (∀ j ∈ p, f (accMin f x xs) < f j) ∧
        (∀ k ∈ x :: xs, f (accMin f x xs) ≤ f k) := by
  intro xs
  induction xs with
  | nil =>
    intro x
    refine ⟨[], [], rfl, by simp, ?_⟩
    intro k hk
    rw [List.mem_singleton.1 hk]
    exact le_rfl
  | cons y ys ih =>
    intro x
    by_cases hlt : f y < f x
    · obtain ⟨p', s', heq, hstrict, hmin⟩ := ih y
      refine ⟨x :: p', s', ?_, ?_, ?_⟩
      · simp only [accMin, if_pos hlt]
        rw [List.cons_append, ← heq]
      · intro j hj
        simp only [accMin, if_pos hlt]
        rcases List.mem_cons.1 hj with hjx | hjp
        · subst hjx
          exact lt_of_le_of_lt (hmin y (List.mem_cons_self _ _)) hlt
        · exact hstrict j hjp
      · intro k hk
        simp only [accMin, if_pos hlt]
        rcases List.mem_cons.1 hk with hkx | hky
        · subst hkx
          exact le_of_lt (lt_of_le_of_lt (hmin y (List.mem_cons_self _ _)) hlt)
        · exact hmin k hky
    · obtain ⟨p', s', heq, hstrict, hmin⟩ := ih x
      cases p' with
      | nil =>
        have hm : accMin f x ys = x := by
          have := heq
          simp only [List.nil_append] at this
          exact (List.cons.injEq _ _ _ _ ▸ this).1.symm
        refine ⟨[], y :: ys, ?_, by simp, ?_⟩
        · simp only [accMin, if_neg hlt, hm, List.nil_append]
        · intro k hk
          simp only [accMin, if_neg hlt, hm]
          rcases List.mem_cons.1 hk with hkx | hky
          · subst hkx; exact le_rfl
          · rcases List.mem_cons.1 hky with hky2 | hkys
            · subst hky2; exact le_of_not_lt hlt
            · have := hmin k (List.mem_cons_of_mem _ hkys)
              rw [hm] at this
              exact this
      | cons a p'' =>
        have hax : a = x ∧ ys = p'' ++ accMin f x ys :: s' := by
          have := heq
          simp only [List.cons_append] at this
          exact ⟨((List.cons.injEq _ _ _ _ ▸ this).1).symm,
            (List.cons.injEq _ _ _ _ ▸ this).2⟩
        obtain ⟨hax1, hax2⟩ := hax
        have hxmem : x ∈ a :: p'' := by rw [hax1]; exact List.mem_cons_self _ _
        have hmx : f (accMin f x ys) < f x := hstrict x hxmem
        refine ⟨x :: y :: p'', s', ?_, ?_, ?_⟩
        · simp only [accMin, if_neg hlt, List.cons_append]
          rw [← hax2]
        · intro j hj
          simp only [accMin, if_neg hlt]
          rcases List.mem_cons.1 hj with hjx | hj2
          · subst hjx; exact hmx
          · rcases List.mem_cons.1 hj2 with hjy | hjp
            · subst hjy
              exact lt_of_lt_of_le hmx (le_of_not_lt hlt)
            · exact hstrict j (List.mem_cons_of_mem _ hjp)
        · intro k hk
          simp only [accMin, if_neg hlt]
          rcases List.mem_cons.1 hk with hkx | hk2
          · subst hkx; exact le_of_lt hmx
          · rcases List.mem_cons.1 hk2 with hky | hkys
            · subst hky
              exact le_trans (le_of_lt hmx) (le_of_not_lt hlt)
            · exact hmin k (List.mem_cons_of_mem _ hkys)

/-- `find?` returns the split element when everything before it fails the
predicate and it satisfies it. -/
theorem find?_of_split (pred : Job → Bool) :
    ∀ (p : List Job) (a : Job) (s : List Job), pred a = true →
      (∀ j ∈ p, pred j = false) → (p ++ a :: s).find? pred = some a := by
  intro p
  induction p with
  | nil =>
    intro a s ha _
    simp only [List.nil_append]
    exact List.find?_cons_of_pos _ ha
  | cons c cs ih =>
    intro a s ha hnot
    have hc : pred c = false := hnot c (List.mem_cons_self _ _)
    simp only [List.cons_append]
    rw [List.find?_cons_of_neg _ (by simp [hc])]
    exact ih a s ha fun j hj => hnot j (List.mem_cons_of_mem _ hj)

/-- The spec's first-minimum selection coincides with the scan's first-wins
running minimum. -/
theorem firstMinBy_eq_accMin (f : Job → ℚ) (x : Job) (xs : List Job) :
    firstMinBy f (x :: xs) = some (accMin f x xs) := by
  obtain ⟨p, s, heq, hstrict, hmin⟩ := accMin_spec f xs x
  unfold firstMinBy
  rw [heq]
  apply find?_of_split
  · simp only [List.all_eq_true, decide_eq_true_eq]
    intro k hk
    exact hmin k (by rw [heq]; exact hk)
  · intro j hj
    have hjlt : f (accMin f x xs) < f j := hstrict j hj
    rw [Bool.eq_false_iff]
    intro hall
    simp only [List.all_eq_true, decide_eq_true_eq] at hall
    have : f j ≤ f (accMin f x xs) :=
      hall _ (List.mem_append.2 (Or.inr (List.mem_cons_self _ _)))
    exact absurd hjlt (not_lt.2 this)

/-- With enough fuel and all jobs located, the source's while loop and the
spec's greedy loop agree. -/
theorem nnGo_eq_greedyGo (D : Coord → Coord → ℚ) :
    ∀ (n : ℕ) (cur : Coord) (l : List Job), (∀ j ∈ l, hasLoc j = true) →
      l.length ≤ n → nnGo D n cur l = greedyGo D n cur l := by
  intro n
  induction n with
  | zero =>
    intro cur l _ hlen
    have : l = [] := List.eq_nil_of_length_eq_zero (Nat.le_zero.1 hlen)
    subst this
    rfl
  | succ n ih =>
    intro cur l hall hlen
    cases l with
    | nil => rfl
    | cons x xs =>
      have hscan := scanNearest_cons D cur x xs hall
      have hfmb := firstMinBy_eq_accMin (fun j => D cur (jobCoords j)) x xs
      obtain ⟨p, s, heq, -, -⟩ := accMin_spec (fun j => D cur (jobCoords j)) xs x
      have hm_mem : accMin (fun j => D cur (jobCoords j)) x xs ∈ x :: xs := by
        rw [heq]
        exact List.mem_append.2 (Or.inr (List.mem_cons_self _ _))
      have hm_loc : hasLoc (accMin (fun j => D cur (jobCoords j)) x xs) = true :=
        hall _ hm_mem
      simp only [nnGo, greedyGo, hscan, hfmb, hm_loc, if_true]
      congr 1
      apply ih
      · intro j hj
        exact hall j (List.mem_of_mem_erase hj)
      · have := List.length_erase_of_mem hm_mem
        rw [this]
        simpa using Nat.le_of_succ_le_succ (by simpa using hlen)

/-- C1: on a nonempty list of jobs that all pass the coordinate guard, the
nearest-neighbor route equals the spec's greedy construction — repeatedly
select the not-yet-visited job at minimum distance from the current position
(the first in input iteration order when equidistant), append it and advance
to its coordinates — for every distance function, hence in particular for the
haversine distance; as an equality of functions of the input list, the output
is deterministic for a fixed input order. -/
theorem nearest_neighbor_route_matches_greedy_spec
    (D : Coord → Coord → ℚ) (start : Coord) (jobs : List Job)
    (hne : jobs ≠ []) (hloc : ∀ j ∈ jobs, hasLoc j = true) :
    nearest_neighbor_route D jobs start = greedyRouteSpec D start jobs := by
  unfold nearest_neighbor_route greedyRouteSpec
  rw [if_neg hne]
  exact nnGo_eq_greedyGo D jobs.length start jobs hloc le_rfl

/-- Witness for `nearest_neighbor_route_matches_greedy_spec` on two located
jobs. -/
theorem nearest_neighbor_route_matches_greedy_spec_witness :
    nearest_neighbor_route Dtaxi [jobP1, jobP2] (1, 1) =
      greedyRouteSpec Dtaxi (1, 1) [jobP1, jobP2] :=
  nearest_neighbor_route_matches_greedy_spec Dtaxi (1, 1) [jobP1, jobP2]
    (by decide) (by decide)

end FSM
